import Mathlib

/-!
Verification development for the Mathigon full interactive textbook parser
(src/full.js).  The JavaScript source is shallowly embedded: strings are
lists of characters, the line-oriented block parser, the inline extension
processor, the extended renderer callbacks and the DOM post-processing
passes are translated function by function.  External collaborators that
the spec places out of scope (the pug templating engine, the yaml metadata
parser, the html-entities decoder, the DOM tree builder) are modelled at
their interface on the fragment languages this program actually feeds
them; each such model carries a doc comment saying exactly what is
modelled.
-/

/-- Strings are modelled as lists of characters (JS strings). -/
abbrev Str := List Char

/-- Concatenation of a list of lists. -/
def catLists {α : Type} : List (List α) → List α
  | [] => []
  | s :: rest => s ++ catLists rest

/-- JS `String.prototype.split` with a single-character separator. -/
def splitChar (sep : Char) : Str → List Str
  | [] => [[]]
  | c :: cs =>
    if c = sep then [] :: splitChar sep cs
    else
      match splitChar sep cs with
      | [] => [[c]]
      | h :: t => (c :: h) :: t

/-- JS `Array.prototype.join` with a single-character separator. -/
def joinChar (sep : Char) : List Str → Str
  | [] => []
  | [s] => s
  | s :: rest => s ++ sep :: joinChar sep rest

/-- Number of (possibly overlapping) occurrences of `pat` in a string. -/
def countSub (pat : Str) : Str → Nat
  | [] => 0
  | c :: cs => (if pat.isPrefixOf (c :: cs) then 1 else 0) + countSub pat cs

/-- Whether `pat` occurs as a contiguous substring. -/
def containsSub (pat : Str) : Str → Bool
  | [] => pat.isPrefixOf ([] : Str)
  | c :: cs => pat.isPrefixOf (c :: cs) || containsSub pat cs

/-- Scanner for `replaceAll`; the counter holds how many characters of a
match found earlier are still to be consumed without rescanning. -/
def replaceAllGo (pat rep : Str) : Nat → Str → Str
  | Nat.succ k, _ :: cs => replaceAllGo pat rep k cs
  | _, [] => []
  | 0, c :: cs =>
    if pat ≠ [] ∧ pat.isPrefixOf (c :: cs) then
      rep ++ replaceAllGo pat rep (pat.length - 1) cs
    else
      c :: replaceAllGo pat rep 0 cs

/-- JS `String.prototype.replace` with a global regex whose pattern is the
literal string `pat`: every non-overlapping occurrence is replaced,
scanning left to right. -/
def replaceAll (pat rep s : Str) : Str := replaceAllGo pat rep 0 s

/-- JS `String.prototype.replace` with a string (not regex) pattern:
only the first occurrence is replaced. -/
def replaceFirst (pat rep : Str) : Str → Str
  | [] => []
  | c :: cs =>
    if pat ≠ [] ∧ pat.isPrefixOf (c :: cs) then
      rep ++ (c :: cs).drop pat.length
    else
      c :: replaceFirst pat rep cs

/-- Scanner for `splitOnSub`; the counter skips the tail of a separator
occurrence found earlier. -/
def splitOnSubGo (sep : Str) : Nat → Str → List Str
  | Nat.succ k, _ :: cs => splitOnSubGo sep k cs
  | _, [] => [[]]
  | 0, c :: cs =>
    if sep ≠ [] ∧ sep.isPrefixOf (c :: cs) then
      [] :: splitOnSubGo sep (sep.length - 1) cs
    else
      match splitOnSubGo sep 0 cs with
      | [] => [[c]]
      | h :: t => (c :: h) :: t

/-- JS `String.prototype.split` with a multi-character separator string. -/
def splitOnSub (sep s : Str) : List Str := splitOnSubGo sep 0 s

/-- JS `String.prototype.trim` (space, tab, newline). -/
def isWs (c : Char) : Bool := c = ' ' || c = '\t' || c = '\n'

/-- JS `String.prototype.trim`. -/
def trimStr (s : Str) : Str :=
  ((s.dropWhile isWs).reverse.dropWhile isWs).reverse

/-- JS `Set.prototype.add`: insertion-ordered, duplicates ignored. -/
def insertSet (l : List Str) (x : Str) : List Str :=
  if x ∈ l then l else l ++ [x]

/-- JS object property assignment: overwrite an existing key in place,
append a fresh key at the end. -/
def setKV (l : List (Str × Str)) (k v : Str) : List (Str × Str) :=
  if l.any (fun p => p.1 = k) then
    l.map (fun p => if p.1 = k then (k, v) else p)
  else
    l ++ [(k, v)]

-- -----------------------------------------------------------------------------
-- Templating collaborator (pug)

/-- Characters allowed in pug tag/class/attribute names. -/
def isNameChar (c : Char) : Bool := c.isAlphanum || c = '-' || c = '_'

/-- Strip a surrounding pair of double quotes from an attribute value. -/
def stripQuotes (v : Str) : Str :=
  if v.length ≥ 2 ∧ v.head? = some '"' ∧ v.getLast? = some '"' then
    v.tail.dropLast
  else v

/-- Render one pug attribute `name=value` (or a bare boolean name) as
html attribute text, preceded by a space. -/
def renderAttr1 (a : Str) : Str :=
  if a = [] then []
  else
    let k := a.takeWhile (fun c => c ≠ '=')
    if k.length = a.length then ' ' :: a
    else ' ' :: (k ++ '=' :: '"' :: (stripQuotes (a.drop (k.length + 1)) ++ ['"']))

/-- Render a comma-separated pug attribute list. -/
def renderAttrs (inside : Str) : Str :=
  catLists ((splitChar ',' inside).map (fun a => renderAttr1 (trimStr a)))

/-- Accumulating scanner for leading `.class` shorthands. -/
def takeClassesGo (cur : Str) : Str → List Str × Str
  | [] => ([cur.reverse], [])
  | c :: cs =>
    if c = '.' then
      match takeClassesGo [] cs with
      | (more, r) => (cur.reverse :: more, r)
    else if isNameChar c then takeClassesGo (c :: cur) cs
    else ([cur.reverse], c :: cs)

/-- Parse the leading `.class` shorthand chain of a pug line. -/
def takeClasses : Str → List Str × Str
  | '.' :: cs => takeClassesGo [] cs
  | s => ([], s)

/-- Model of the external templating collaborator (pug), on the single-tag
fragment language this program feeds it: a plain-text pipe line, or a tag
name or chain of `.class` shorthands with an optional parenthesized
attribute list and optional inline text after a space.  Mirrors pug
semantics for these forms: `| text` renders the bare text, `div(width=200)`
renders the attribute, while `div width=200` treats everything after the
space as inline text; `.tab` renders a div with class `tab`. -/
def pugRender (s : Str) : Str :=
  if s.head? = some '|' then
    match s.tail with
    | ' ' :: txt => txt
    | txt => txt
  else
  let nameCls : Str × List Str × Str :=
    if s.head? = some '.' then
      match takeClasses s with
      | (cs, r) => ("div".data, cs, r)
    else
      let n := s.takeWhile isNameChar
      (n, [], s.drop n.length)
  let name := nameCls.1
  let classes := nameCls.2.1
  let rest := nameCls.2.2
  let attrsRest : Str × Str :=
    if rest.head? = some '(' then
      let inside := rest.tail.takeWhile (fun c => c ≠ ')')
      (renderAttrs inside, rest.tail.drop (inside.length + 1))
    else ([], rest)
  let attrs := attrsRest.1
  let rest2 := attrsRest.2
  let txt := if rest2.head? = some ' ' then rest2.tail else rest2
  let clsAttr :=
    if classes = [] then ([] : Str)
    else " class=\"".data ++ joinChar ' ' classes ++ ['"']
  '<' :: (name ++ clsAttr ++ attrs ++ '>' :: txt ++ "</".data ++ name ++ ['>'])

-- -----------------------------------------------------------------------------
-- Block structure parser (blockIndentation, src/full.js lines 62-105)

/-- Replacement for the first occurrence of the regex
`width="([0-9]+)"` by `style="width: $1px"` (src/full.js line 79;
the regex has no global flag, so only the first occurrence is rewritten). -/
def widthToStyle : Str → Str
  | [] => []
  | c :: cs =>
    if "width=\"".data.isPrefixOf (c :: cs) then
      let rest := (c :: cs).drop 7
      let ds := rest.takeWhile Char.isDigit
      if ds ≠ [] ∧ (rest.drop ds.length).head? = some '"' then
        "style=\"width: ".data ++ ds ++ "px\"".data ++ (rest.drop ds.length).tail
      else c :: widthToStyle cs
    else c :: widthToStyle cs

/-- Tag specifier of a marker line: `lines[i].slice(4)` (src/full.js
line 69) — the specifier starts at character offset 4, so the character at
offset 3 is always skipped. -/
def markerTag (line : Str) : Str := line.drop 4

/-- The loop body of `blockIndentation`: rewrites each `:::` marker line,
threading the close-tag stack and the nesting stack.  JS note: on a close
marker with an empty stack, `closeTags.pop()` yields `undefined`, and
string concatenation turns it into the literal text `undefined` — there is
no error path (src/full.js line 72). -/
def blockLines : List Str → List Str → List Str → List Str
  | [], _, _ => []
  | l :: ls, closeTags, nested =>
    if (":::".data.isPrefixOf l) = false then l :: blockLines ls closeTags nested
    else
      let tag := markerTag l
      if tag = [] then
        ('\n' :: closeTags.headD "undefined".data ++ ['\n']) ::
          blockLines ls closeTags.tail nested.tail
      else if "column".data.isPrefixOf tag then
        let col := widthToStyle
          ((splitOnSub "</".data (pugRender (replaceFirst "column".data "div".data tag))).headD [])
        if nested.headD [] = "column".data then
          ("\n</div>".data ++ col ++ ['\n']) :: blockLines ls closeTags nested
        else
          ("<div class=\"row padded\">".data ++ col ++ ['\n']) ::
            blockLines ls ("</div></div>".data :: closeTags) ("column".data :: nested)
      else if "tab".data.isPrefixOf tag then
        let col := (splitOnSub "</".data (pugRender (replaceFirst "tab".data ".tab".data tag))).headD []
        if nested.headD [] = "tab".data then
          ("\n</div>".data ++ col ++ ['\n']) :: blockLines ls closeTags nested
        else
          ("<x-tabbox>".data ++ col ++ ['\n']) ::
            blockLines ls ("</div></x-tabbox>".data :: closeTags) ("tab".data :: nested)
      else
        let wrap := splitOnSub "</".data (pugRender tag)
        (wrap.headD [] ++ ['\n']) ::
          blockLines ls (("</".data ++ wrap.getD 1 "undefined".data) :: closeTags) ([] :: nested)

/-- HTML tag wrappers using `:::` and indentation (src/full.js
`blockIndentation`). -/
def blockIndentation (source : Str) : Str :=
  joinChar '\n' (blockLines (splitChar '\n' source) [] [])

-- -----------------------------------------------------------------------------
-- Inline extension processor (parseParagraph, src/full.js lines 130-139)

/-- The element emitted for a `[[...]]` blank marker (src/full.js lines
132-135): a multiple-choice blank when `body.split('|').length > 1`, a
free-text blank otherwise. -/
def blankElem (body : Str) : Str :=
  if 1 < (splitChar '|' body).length then
    "<x-blank choices=\"".data ++ body ++ "\"></x-blank>".data
  else
    "<x-blank-input solution=\"".data ++ body ++ "\"></x-blank-input>".data

/-- Scanner for the global regex `\[\[([^\]]+)]]` (src/full.js line 132);
the counter skips characters consumed by a match found earlier. -/
def parseBlanksGo : Nat → Str → Str
  | Nat.succ k, _ :: cs => parseBlanksGo k cs
  | _, [] => []
  | 0, c :: cs =>
    if c = '[' ∧ cs.head? = some '[' then
      let body := cs.tail.takeWhile (fun x => x ≠ ']')
      if body ≠ [] ∧ "]]".data.isPrefixOf (cs.tail.drop body.length) then
        blankElem body ++ parseBlanksGo (body.length + 3) cs
      else c :: parseBlanksGo 0 cs
    else c :: parseBlanksGo 0 cs

/-- First rewrite stage of `parseParagraph`: double-bracket blank markers. -/
def parseBlanks (s : Str) : Str := parseBlanksGo 0 s

/-- Replacement text for a bound-variable marker
(`<x-var bind="$2">${$1}</x-var>`, src/full.js line 136). -/
def varBindElem (b1 b2 : Str) : Str :=
  "<x-var bind=\"".data ++ b2 ++ "\">$\x7b".data ++ b1 ++ "\x7d</x-var>".data

/-- Scanner for the global regex matching bound-variable markers with two
brace groups (src/full.js line 136). -/
def varBindGo : Nat → Str → Str
  | Nat.succ k, _ :: cs => varBindGo k cs
  | _, [] => []
  | 0, c :: cs =>
    if c = '$' ∧ cs.head? = some '\x7b' then
      let b1 := cs.tail.takeWhile (fun x => x ≠ '\x7d')
      let r2 := cs.tail.drop b1.length
      if b1 ≠ [] ∧ "\x7d\x7b".data.isPrefixOf r2 then
        let b2 := (r2.drop 2).takeWhile (fun x => x ≠ '\x7d')
        if b2 ≠ [] ∧ ((r2.drop 2).drop b2.length).head? = some '\x7d' then
          varBindElem b1 b2 ++ varBindGo (b1.length + b2.length + 4) cs
        else c :: varBindGo 0 cs
      else c :: varBindGo 0 cs
    else c :: varBindGo 0 cs

/-- Second rewrite stage of `parseParagraph`: bound-variable markers. -/
def varBind (s : Str) : Str := varBindGo 0 s

/-- Replacement text for a plain variable marker
(`<span class="var">${$1}</span>`, src/full.js line 137). -/
def varSpanElem (b : Str) : Str :=
  "<span class=\"var\">$\x7b".data ++ b ++ "\x7d</span>".data

/-- Scanner for the global regex matching plain variable markers with a
negative lookahead for a closing x-var tag (src/full.js line 137). -/
def varSpanGo : Nat → Str → Str
  | Nat.succ k, _ :: cs => varSpanGo k cs
  | _, [] => []
  | 0, c :: cs =>
    if c = '$' ∧ cs.head? = some '\x7b' then
      let b := cs.tail.takeWhile (fun x => x ≠ '\x7d')
      let r2 := cs.tail.drop b.length
      if b ≠ [] ∧ r2.head? = some '\x7d' ∧ ("</x-var>".data.isPrefixOf r2.tail) = false then
        varSpanElem b ++ varSpanGo (b.length + 2) cs
      else c :: varSpanGo 0 cs
    else c :: varSpanGo 0 cs

/-- Third rewrite stage of `parseParagraph`: plain variable markers. -/
def varSpan (s : Str) : Str := varSpanGo 0 s

/-- The inline extension processor (src/full.js `parseParagraph`): the
three regex rewrites, in source order.  The final `emoji.emojify` step is
the external emoji-name resolver collaborator; it is the identity on text
containing no known `:name:` shorthand, and its known-name table is
external data, so it is modelled as the identity. -/
def parseParagraph (text : Str) : Str :=
  varSpan (varBind (parseBlanks text))

-- -----------------------------------------------------------------------------
-- Link renderer and reference sets (src/full.js lines 27-28, 147-171)

/-- Model of the html-entities decoder collaborator on the named entities
relevant to link targets. -/
def entitiesDecode (s : Str) : Str :=
  replaceAll "&amp;".data "&".data
    (replaceAll "&quot;".data "\"".data
      (replaceAll "&lt;".data "<".data
        (replaceAll "&gt;".data ">".data s)))

/-- The custom link renderer (src/full.js `renderer.link`; the unused
`title` argument is dropped).  Returns the emitted html together with the
updated biography and glossary sets. -/
def renderLink (href text : Str) (bios gloss : List Str) :
    Str × List Str × List Str :=
  if "gloss:".data.isPrefixOf href then
    let i := href.drop 6
    ("<x-gloss xid=\"".data ++ i ++ "\">".data ++ text ++ "</x-gloss>".data,
     bios, insertSet gloss i)
  else if "bio:".data.isPrefixOf href then
    let i := href.drop 4
    ("<x-bio xid=\"".data ++ i ++ "\">".data ++ text ++ "</x-bio>".data,
     insertSet bios i, gloss)
  else if "target:".data.isPrefixOf href then
    let i := href.drop 7
    ("<span class=\"step-target\" data-to=\"".data ++ i ++ "\">".data ++ text ++ "</span>".data,
     bios, gloss)
  else
    let href1 := entitiesDecode href
    if "->".data.isPrefixOf href1 then
      ("<x-target to=\"".data ++ trimStr (href1.drop 2) ++ "\">".data ++ text ++ "</x-target>".data,
       bios, gloss)
    else
      ("<a href=\"".data ++ href ++ "\" target=\"_blank\">".data ++ text ++ "</a>".data,
       bios, gloss)

/-- The glossary and biography sets accumulated over the document's link
sequence, in the order the markdown engine invokes the link renderer. -/
def processLinks : List (Str × Str) → List Str × List Str → List Str × List Str
  | [], acc => acc
  | (href, text) :: rest, acc =>
    match renderLink href text acc.1 acc.2 with
    | (_, b2, g2) => processLinks rest (b2, g2)

-- -----------------------------------------------------------------------------
-- Document / step model and the stateful renderer (src/full.js lines 27-33,
-- 173-219, 227-291)

/-- One step record of `data.steps`.  The keys `id`, `goals` and `class`
are the ones the DOM post-processor reads back; all other front-matter
keys land in `extra`. -/
structure StepRec where
  id : Option Str
  goals : Option Str
  cls : Option Str
  extra : List (Str × Str)
deriving DecidableEq

/-- A fresh step object, as pushed by the hr renderer. -/
def emptyStep : StepRec := { id := none, goals := none, cls := none, extra := [] }

/-- The module-level mutable state of src/full.js (lines 27-33): the
reference sets, the document data (title, extra metadata, step list), the
current directory, the accumulated global pug preamble and the cached
unparsed paragraph.  `currentStep` is not a separate field: it is null
exactly when `data.steps` is empty and otherwise aliases the last pushed
step, which is how the source keeps them in sync.  `corrupt` models the
ill-typed state reached when document-level front matter overwrites the
`steps` array itself with a non-array value. -/
structure GState where
  bios : List Str
  gloss : List Str
  title : Option Str
  docMeta : List (Str × Str)
  steps : List StepRec
  corrupt : Bool
  currentDirectory : Str
  globalPug : Str
  originalP : Option Str
deriving DecidableEq

/-- The module-load values of the mutable state (src/full.js lines 27-33). -/
def initG : GState :=
  { bios := [], gloss := [], title := none, docMeta := [], steps := [],
    corrupt := false, currentDirectory := [], globalPug := [], originalP := none }

/-- Model of the structured-metadata (yaml) parser collaborator on the
flat `key: value` line blocks this program feeds it. -/
def yamlParse (s : Str) : List (Str × Str) :=
  (splitChar '\n' s).filterMap (fun line =>
    let k := line.takeWhile (fun c => c ≠ ':')
    if k.length = line.length ∨ k = [] then none
    else some (k, trimStr (line.drop (k.length + 1))))

/-- Merge one front-matter key/value pair into a step object
(JS `Object.assign(currentStep, documentData)`). -/
def mergeStepKV (d : StepRec) (kv : Str × Str) : StepRec :=
  if kv.1 = "id".data then { d with id := some kv.2 }
  else if kv.1 = "goals".data then { d with goals := some kv.2 }
  else if kv.1 = "class".data then { d with cls := some kv.2 }
  else { d with extra := setKV d.extra kv.1 kv.2 }

/-- Apply a function to the last element of the step list (the object
`currentStep` aliases). -/
def updateLast (f : StepRec → StepRec) : List StepRec → List StepRec
  | [] => []
  | [d] => [f d]
  | d :: ds => d :: updateLast f ds

/-- Merge one front-matter key/value pair into the document data
(JS `Object.assign(data, documentData)`).  A key literally named `steps`
would overwrite the step array with a non-array value; this ill-typed
state is modelled by the `corrupt` flag, which aborts the call. -/
def mergeDocKV (st : GState) (kv : Str × Str) : GState :=
  if kv.1 = "title".data then { st with title := some kv.2 }
  else if kv.1 = "steps".data then { st with corrupt := true }
  else { st with docMeta := setKV st.docMeta kv.1 kv.2 }

/-- The blockquote renderer's merge target: the current step when one is
open, the document data otherwise (src/full.js line 192). -/
def mergeMeta (st : GState) (kvs : List (Str × Str)) : GState :=
  if st.steps = [] then kvs.foldl mergeDocKV st
  else { st with steps := updateLast (fun d => kvs.foldl mergeStepKV d) st.steps }

/-- Block tokens appearing inside a blockquote.  The markdown engine
renders a blockquote's inner tokens through the same renderer callbacks
before invoking the blockquote callback on their concatenated html; the
forms metadata blockquotes contain are paragraphs and headings, and a
horizontal rule is included because its side effect (pushing a step
record) survives even though the blockquote discards its output. -/
inductive BTok where
  | bheading (level : Nat) (text : Str)
  | bparagraph (text : Str)
  | bhr
deriving DecidableEq

/-- The block tokens whose renderer callbacks the claims are about; the
markdown tokenizer producing them is an external collaborator.  A
blockquote carries its inner tokens, because the markdown engine renders
them first and hands their html to the blockquote callback. -/
inductive Tok where
  | heading (level : Nat) (text : Str)
  | hr
  | paragraph (text : Str)
  | blockquote (inner : List BTok)
  | code (text : Str)
deriving DecidableEq

/-- Rendered output fragments.  The hr renderer's step tags are kept
structural (`stepOpen`/`stepClose`) because the DOM-builder collaborator
creates one x-step element per such start tag; all other output is text. -/
inductive Frag where
  | stepOpen
  | stepClose
  | text (s : Str)
deriving DecidableEq

/-- Serialization of a fragment back to the html text the renderer
actually returned. -/
def fragStr : Frag → Str
  | Frag.stepOpen => "<x-step>".data
  | Frag.stepClose => "</x-step>".data
  | Frag.text s => s

/-- The renderer callbacks as they run on a blockquote's inner tokens
(the same heading, paragraph and hr callbacks of src/full.js lines
173-219): a level-1 heading stores the title, a paragraph caches its
text in `originalP` before wrapping it, an hr pushes a fresh step record
and returns the step boundary tags.  Their html only forms the `quote`
string the blockquote callback receives (and discards), so it is
returned as plain text. -/
def renderBTok (st : GState) : BTok → Str × GState
  | BTok.bheading l t =>
    if l = 1 then ([], { st with title := some t })
    else
      ("<h".data ++ (Nat.repr l).data ++ '>' ::
        (t ++ "</h".data ++ (Nat.repr l).data ++ ['>']), st)
  | BTok.bparagraph t =>
    ("<p>".data ++ parseParagraph t ++ "</p>".data, { st with originalP := some t })
  | BTok.bhr =>
    ((if st.steps = [] then "<x-step>".data else "</x-step><x-step>".data),
     { st with steps := st.steps ++ [emptyStep] })

/-- Render a blockquote's inner token sequence, concatenating the html
that becomes the quote text. -/
def runBToks : List BTok → GState → Str × GState
  | [], st => ([], st)
  | b :: bs, st =>
    match renderBTok st b with
    | (h1, st1) =>
      match runBToks bs st1 with
      | (h2, st2) => (h1 ++ h2, st2)

/-- The extended renderer callbacks (src/full.js lines 173-219), one case
per overridden token kind.  A level-1 heading records the title and
renders nothing; hr pushes a fresh step and emits the step boundary tags;
a paragraph caches its text in `originalP` before wrapping it; an
indented code block accumulates into the global pug preamble before the
first step and is rendered through the templating collaborator inside a
step.  For a blockquote, the markdown engine first renders the quote's
inner tokens through the same callbacks (so an inner paragraph overwrites
`originalP` with the quote's own raw text before the blockquote callback
runs); the blockquote callback then receives their concatenated html as
`quote`, parses `originalP || quote` as metadata, merges it, and returns
the empty string, discarding the inner html. -/
def renderTok (st : GState) : Tok → List Frag × GState
  | Tok.heading l t =>
    if l = 1 then ([Frag.text []], { st with title := some t })
    else
      ([Frag.text ("<h".data ++ (Nat.repr l).data ++ '>' ::
        (t ++ "</h".data ++ (Nat.repr l).data ++ ['>']))], st)
  | Tok.hr =>
    ((if st.steps = [] then [Frag.stepOpen] else [Frag.stepClose, Frag.stepOpen]),
     { st with steps := st.steps ++ [emptyStep] })
  | Tok.paragraph t =>
    ([Frag.text ("<p>".data ++ parseParagraph t ++ "</p>".data)],
     { st with originalP := some t })
  | Tok.blockquote inner =>
    match runBToks inner st with
    | (quote, st1) =>
      let src := match st1.originalP with
        | some p => if p = [] then quote else p
        | none => quote
      ([Frag.text []], mergeMeta st1 (yamlParse src))
  | Tok.code c =>
    if st.steps = [] then
      ([Frag.text []], { st with globalPug := st.globalPug ++ c ++ "\n\n".data })
    else
      ([Frag.text (pugRender (st.globalPug ++ c))], st)

/-- Run the renderer over the token sequence, concatenating fragments. -/
def runTokens : List Tok → GState → List Frag × GState
  | [], st => ([], st)
  | t :: ts, st =>
    match renderTok st t with
    | (f1, st1) =>
      match runTokens ts st1 with
      | (fs, st2) => (f1 ++ fs, st2)

/-- Number of x-step elements the DOM-builder collaborator creates: one
per x-step start tag. -/
def countOpens : List Frag → Nat
  | [] => 0
  | Frag.stepOpen :: fs => countOpens fs + 1
  | _ :: fs => countOpens fs

/-- JS truthiness of a step id: absent or the empty string
(the `!d.id` test of src/full.js line 277). -/
def idFalsy : Option Str → Bool
  | none => true
  | some s => s.isEmpty

/-- The step-identity loop of the DOM post-processor (src/full.js lines
274-281): for each of the `numElems` x-step elements in document order,
take the step record at the same index (a missing record is the JS
TypeError, modelled as `none`), default its id to `step-<index>` when
falsy, and copy the id onto the element.  Returns the element ids and the
mutated records. -/
def domAssign (i : Nat) : Nat → List StepRec → Option (List Str × List StepRec)
  | 0, steps => some ([], steps)
  | Nat.succ _, [] => none
  | Nat.succ n, d :: ds =>
    let d2 := if idFalsy d.id then
        { d with id := some ("step-".data ++ (Nat.repr i).data) }
      else d
    match domAssign (i + 1) n ds with
    | none => none
    | some (ids, rest) => some (d2.id.getD [] :: ids, d2 :: rest)

/-- The result bundle of a compilation call. -/
structure PResult where
  html : Str
  bios : List Str
  gloss : List Str
  title : Option Str
  docMeta : List (Str × Str)
  steps : List StepRec
  stepElemIds : List Str
deriving DecidableEq

/-- The state reset at the start of `parseFull` (src/full.js lines
228-233): `bios`, `gloss`, `data` (title, metadata, steps), `currentStep`
(implicit in the empty step list), `currentDirectory` and `globalPug` are
reset — `originalP` is not. -/
def resetOf (path : Str) (st : GState) : GState :=
  { bios := [], gloss := [], title := none, docMeta := [], steps := [],
    corrupt := false, currentDirectory := path, globalPug := [],
    originalP := st.originalP }

/-- The inner html of each x-step element in document order, read off the
fragment stream: the text between a step start tag and the next step
boundary.  The DOM-builder collaborator parses this text as the
element's child nodes. -/
def stepContentsGo (inStep : Bool) (cur : Str) : List Frag → List Str
  | [] => if inStep then [cur] else []
  | Frag.stepOpen :: fs =>
    if inStep then cur :: stepContentsGo true [] fs else stepContentsGo true [] fs
  | Frag.stepClose :: fs =>
    if inStep then cur :: stepContentsGo false [] fs else stepContentsGo false [] fs
  | Frag.text s :: fs => stepContentsGo inStep (cur ++ s) fs

/-- Contents of the x-step elements of a rendered fragment stream. -/
def stepContents (frags : List Frag) : List Str :=
  stepContentsGo false [] frags

/-- The leading text node of an element whose inner html is `content`:
the raw text before the first tag (empty when the content starts with an
element or is empty, in which case the first child is not a text node). -/
def firstChildText (content : Str) : Str :=
  content.takeWhile (fun c => c ≠ '<')

/-- The regex `^\{([^\}]+)\}` of `blockAttributes` (src/full.js line
111) on a leading text node: the brace group's body, when it matches. -/
def braceMatch : Str → Option Str
  | '\x7b' :: rest =>
    let body := rest.takeWhile (fun c => c ≠ '\x7d')
    if body ≠ [] ∧ (rest.drop body.length).head? = some '\x7d' then some body
    else none
  | _ => none

/-- Tag name of the root element of a rendered html fragment
(`div.children[0].tagName` of src/full.js line 119, lowercased). -/
def pugRootTag (rendered : Str) : Str :=
  match rendered with
  | '<' :: rest => rest.takeWhile isNameChar
  | _ => []

/-- Whether the `blockAttributes` pass (src/full.js lines 107-127, run at
line 255) replaces an x-step element with another element: the step's
first child is a text node matching a leading brace group whose content
renders (through the templating collaborator) to a root other than a div
— in that case the whole x-step node is swapped for the rendered root
(lines 124-127) and no x-step element remains for this step.  A div root
only merges attributes and leaves the element in place. -/
def stepReplaced (content : Str) : Bool :=
  match braceMatch (firstChildText content) with
  | none => false
  | some body => pugRootTag (pugRender body) ≠ "div".data

/-- The compilation pipeline after the reset (src/full.js lines 244-291):
render the tokens, append the synthetic closing step tag, apply the
attribute-block expansion to the step elements (which can replace an
x-step whose leading brace group renders to a non-div root), count the
surviving step elements, run the step-identity loop, and bundle the
results.  `none` models the thrown TypeError (step element without a
record, or corrupted step array).  The `html` field is the renderer
output as serialized before DOM post-processing; the attribute-block
expansion on elements other than the steps themselves and the
markdown-in-html (.md) re-parse of lines 258-263 are not modelled — the
step theorems carry side conditions (`fragClean`) confining documents to
ones where those passes cannot create or destroy x-step elements. -/
def parseFullGo (st1 : GState) (doc : List Tok) : Option PResult × GState :=
  match runTokens doc st1 with
  | (frags0, st2) =>
    let frags := frags0 ++ [Frag.stepClose]
    let numElems := ((stepContents frags).filter (fun c => !stepReplaced c)).length
    if st2.corrupt then (none, st2)
    else
      match domAssign 0 numElems st2.steps with
      | none => (none, st2)
      | some (ids, steps2) =>
        (some { html := catLists (frags.map fragStr), bios := st2.bios,
                gloss := st2.gloss, title := st2.title, docMeta := st2.docMeta,
                steps := steps2, stepElemIds := ids },
         { st2 with steps := steps2 })

/-- One call of `parseFull` (src/full.js line 227), at the token level:
the per-call state reset followed by the pipeline.  The string-level
stages that precede tokenization (URL rewriting, attribute renaming,
`blockIndentation`) and the tokenizer itself sit between `resetOf` and
`runTokens` and are modelled separately at the string level. -/
def parseFullModel (path : Str) (doc : List Tok) (st : GState) :
    Option PResult × GState :=
  parseFullGo (resetOf path st) doc

-- -----------------------------------------------------------------------------
-- DOM post-processor: parent-class propagation (src/full.js lines 266-271)

/-- An element of the html tree the DOM-builder collaborator produces:
tag name, attributes, class list (the DOM keeps `classList` in sync with
the class attribute) and child elements. -/
inductive Elem where
  | mk (tag : Str) (attrs : List (Str × Str)) (classes : List Str)
       (children : List Elem)

/-- Attribute list of an element. -/
def attrsOf : Elem → List (Str × Str)
  | Elem.mk _ a _ _ => a

/-- Class list of an element. -/
def classesOf : Elem → List Str
  | Elem.mk _ _ c _ => c

/-- Child elements of an element. -/
def childrenOf : Elem → List Elem
  | Elem.mk _ _ _ ch => ch

/-- JS `getAttribute('parent')`: the value of the `parent` attribute, if
present. -/
def getParentAttr (e : Elem) : Option Str :=
  ((attrsOf e).find? (fun p => p.1 = "parent".data)).map (fun p => p.2)

/-- JS `classList.add(...classes)`: insertion-ordered, duplicates
ignored. -/
def addClasses (cl : List Str) (new : List Str) : List Str :=
  new.foldl insertSet cl

/-- The classes a node receives from its children's `parent` attributes:
each child's attribute value split on spaces, in document order
(src/full.js lines 268-270). -/
def parentClasses (children : List Elem) : List Str :=
  catLists ((children.filterMap getParentAttr).map (splitChar ' '))

/-- The parent-class propagation pass on one element and its subtree
(src/full.js lines 266-271): every element carrying a `parent` attribute
has the attribute removed and its space-separated class list added to its
parent node's class list.  The pass collects a static element list first,
so reads and writes never interfere; this recursion computes the same
result node by node. -/
def propagateNode : Elem → Elem
  | Elem.mk t attrs cls ch =>
    Elem.mk t (attrs.filter (fun p => p.1 ≠ "parent".data))
      (addClasses cls (parentClasses ch))
      (ch.attach.map (fun x => propagateNode x.1))
decreasing_by
  have := List.sizeOf_lt_of_mem x.2
  simp only [Elem.mk.sizeOf_spec]
  omega

/-- The pass as run from `doc.body`: `querySelectorAll('[parent]')` never
returns the body itself, so the body keeps its attributes and only gains
the classes its children target at it. -/
def propagateBody : Elem → Elem
  | Elem.mk t attrs cls ch =>
    Elem.mk t attrs (addClasses cls (parentClasses ch))
      (ch.map propagateNode)

/-- No element of the subtree carries a `parent` attribute. -/
def parentFree : Elem → Bool
  | Elem.mk _ attrs _ ch =>
    attrs.all (fun p => p.1 ≠ "parent".data) && (ch.attach.all (fun x => parentFree x.1))
decreasing_by
  have := List.sizeOf_lt_of_mem x.2
  simp only [Elem.mk.sizeOf_spec]
  omega

-- -----------------------------------------------------------------------------
-- Text preprocessor: attribute renaming (src/full.js lines 239-241)

/-- The attribute-renaming stage of the text preprocessor (src/full.js
lines 239-241): three global replaces, in source order. -/
def renameAttributes (s : Str) : Str :=
  replaceAll "animation=".data "data-animation=".data
    (replaceAll "delay=".data "data-delay=".data
      (replaceAll "when=".data "data-when=".data s))

-- -----------------------------------------------------------------------------
-- Side conditions and the specified step-id shape for the step theorems

/-- Whether an inner blockquote token is kept out of the step machinery:
an hr inside a blockquote pushes a step record whose boundary tags the
blockquote callback discards, desynchronizing records and elements. -/
def btokKeep : BTok → Bool
  | BTok.bhr => false
  | _ => true

/-- Whether a document token contains no hr inside a blockquote. -/
def tokNoBhr : Tok → Bool
  | Tok.blockquote inner => inner.all btokKeep
  | _ => true

/-- Whether a rendered text fragment cannot create or destroy x-step
elements through the DOM passes the model does not track node by node:
it contains no counterfeit x-step start tag, no attribute-block group
whose templating root would be an x-step element (src/full.js lines
124-127 replace a node with that root), and no `md` text at all — ruling
out any `class="md"` that would trigger the markdown-in-html re-parse of
lines 258-263, which can emit step tags and push step records. -/
def fragClean : Frag → Bool
  | Frag.text s =>
    containsSub "<x-step".data s = false ∧
    containsSub "\x7bx-step".data s = false ∧
    containsSub "md".data s = false
  | _ => true

/-- The step id the spec prescribes at position `i`: the explicit
front-matter id when one was set, `step-<i>` otherwise. -/
def specId (i : Nat) (d : StepRec) : Str :=
  match d.id with
  | some s => s
  | none => "step-".data ++ (Nat.repr i).data

-- -----------------------------------------------------------------------------
-- Helper lemmas

theorem replaceAllGo_id (pat rep s : Str) (h : containsSub pat s = false) :
    replaceAllGo pat rep 0 s = s := by
  induction s with
  | nil => rfl
  | cons c cs ih =>
    simp only [containsSub, Bool.or_eq_false_iff] at h
    simp only [replaceAllGo, h.1, Bool.false_eq_true, and_false, if_false]
    rw [ih h.2]

theorem replaceAll_id (pat rep s : Str) (h : containsSub pat s = false) :
    replaceAll pat rep s = s :=
  replaceAllGo_id pat rep s h

-- -----------------------------------------------------------------------------
-- Claim theorems

/-- C1: behavior of the block parser on an unmatched block-close marker.
The spec says compilation fails with a StructureError and produces no
output; the code instead pops from the empty close-tag stack, obtaining
JS `undefined`, splices the literal text `undefined` into the output and
continues — `blockIndentation` has no error path at all. -/
theorem C1_unmatchedClose_noError :
    blockIndentation ":::".data = "\nundefined\n".data ∧
    containsSub "undefined".data (blockIndentation ":::".data) = true := by
  constructor
  · decide
  · decide

/-- C10: the tag specifier of a marker line is `line.slice(4)`, so any
line made of the `:::` sentinel plus exactly one further character has an
empty specifier (the character at offset 3 is skipped) and is processed
as a close marker for the innermost open block, not as an open marker for
a one-character tag. -/
theorem C10_sliceFour (c : Char) :
    markerTag (":::".data ++ [c]) = [] ∧
    blockLines ["::: .box".data, ":::".data ++ [c]] [] []
      = blockLines ["::: .box".data, ":::".data] [] [] ∧
    blockIndentation "::: .box\n:::x".data
      = "<div class=\"box\">\n\n\n</div>\n".data := by
  refine ⟨rfl, rfl, by decide⟩

/-- C7: the text preprocessor's attribute-renaming stage replaces exactly
the occurrences of the three fixed substrings `when=`, `delay=` and
`animation=` by their `data-` prefixed forms; any source text containing
none of the three patterns is left completely untouched. -/
theorem C7_renameAttributes (s : Str)
    (h1 : containsSub "when=".data s = false)
    (h2 : containsSub "delay=".data s = false)
    (h3 : containsSub "animation=".data s = false) :
    renameAttributes s = s ∧
    renameAttributes "<p when=blink delay=3 animation=pop>".data
      = "<p data-when=blink data-delay=3 data-animation=pop>".data := by
  constructor
  · unfold renameAttributes
    rw [replaceAll_id _ _ _ h1, replaceAll_id _ _ _ h2, replaceAll_id _ _ _ h3]
  · decide

theorem C7_renameAttributes_witness :
    (containsSub "when=".data "# Intro".data = false ∧
     containsSub "delay=".data "# Intro".data = false ∧
     containsSub "animation=".data "# Intro".data = false) ∧
    (renameAttributes "# Intro".data = "# Intro".data ∧
     renameAttributes "<p when=blink delay=3 animation=pop>".data
       = "<p data-when=blink data-delay=3 data-animation=pop>".data) :=
  ⟨⟨by decide, by decide, by decide⟩,
   C7_renameAttributes "# Intro".data (by decide) (by decide) (by decide)⟩

/-- C5 counterexample: the input of the claim, verbatim — `::: column
width=200`, content, a bare `:::`, content, and a final `:::`.  On the
code, the bare `:::` closes the whole column group (it never opens a
second column), the final `:::` pops an empty stack and splices the
literal text `undefined`, and the unparenthesized `width=200` is inline
text to the templating engine, so no `style="width: 200px"` is ever
produced and only one column div exists. -/
theorem C5_claimInput_refuted :
    blockIndentation "::: column width=200\na\n:::\nb\n:::".data
      = "<div class=\"row padded\"><div>width=200\n\na\n\n</div></div>\n\nb\n\nundefined\n".data ∧
    countSub "style=\"width: 200px\"".data
      (blockIndentation "::: column width=200\na\n:::\nb\n:::".data) = 0 ∧
    countSub "<div".data
      (blockIndentation "::: column width=200\na\n:::\nb\n:::".data) = 2 ∧
    containsSub "undefined".data
      (blockIndentation "::: column width=200\na\n:::\nb\n:::".data) = true := by
  refine ⟨by decide, by decide, by decide, by decide⟩

/-- C5 (amended): a second column is opened by a second `::: column`
marker, and the width attribute uses pug's parenthesized form.  The input
`::: column(width=200)` / content / `::: column(width=200)` / content /
`:::` produces a single row container wrapping two column divs, each
carrying the inline style `width: 200px` (the numeric width attribute
rewritten into a style), with exactly one outer closing pair `</div></div>`
and equally many div open and close tags. -/
theorem C5_twoColumns :
    blockIndentation "::: column(width=200)\na\n::: column(width=200)\nb\n:::".data
      = "<div class=\"row padded\"><div style=\"width: 200px\">\n\na\n\n</div><div style=\"width: 200px\">\n\nb\n\n</div></div>\n".data ∧
    countSub "<div style=\"width: 200px\">".data
      (blockIndentation "::: column(width=200)\na\n::: column(width=200)\nb\n:::".data) = 2 ∧
    countSub "<div class=\"row padded\">".data
      (blockIndentation "::: column(width=200)\na\n::: column(width=200)\nb\n:::".data) = 1 ∧
    countSub "</div></div>".data
      (blockIndentation "::: column(width=200)\na\n::: column(width=200)\nb\n:::".data) = 1 ∧
    countSub "<div".data
      (blockIndentation "::: column(width=200)\na\n::: column(width=200)\nb\n:::".data)
      = countSub "</div>".data
          (blockIndentation "::: column(width=200)\na\n::: column(width=200)\nb\n:::".data) := by
  refine ⟨by decide, by decide, by decide, by decide, by decide⟩

/-- C2 counterexample: the result of a second `parseFull` call depends on
what was compiled before.  The first call renders a paragraph, leaving
its text in the (unreset) `originalP` cache.  The second call's document
is a blockquote containing only a heading: no paragraph runs inside the
quote, so `originalP` still holds the previous document's paragraph when
the blockquote callback evaluates `originalP || quote`, and the previous
document's text is parsed as this document's metadata.  (A blockquote
containing a paragraph is unaffected: the inner paragraph callback
overwrites `originalP` with the quote's own text first — see the
evaluation checks.) -/
theorem C2_secondCall_dependsOnFirst :
    (parseFullModel "d".data [Tok.blockquote [BTok.bheading 2 "y".data]]
        (parseFullModel "d".data [Tok.paragraph "x: 1".data] initG).2).1
    ≠ (parseFullModel "d".data [Tok.blockquote [BTok.bheading 2 "y".data]] initG).1 := by
  decide

/-- C2 (amended): `parseFull` resets `bios`, `gloss`, `data` (title,
metadata, step list), the current step, the current directory and the
accumulated pug preamble at the start of each call — but not the cached
unparsed-paragraph text `originalP`.  A call's result is therefore
determined by its arguments together with the `originalP` left behind by
earlier calls: two calls with equal arguments starting from states with
equal `originalP` give equal results and equal final states. -/
theorem C2_resetExceptOriginalP (path : Str) (doc : List Tok) (s1 s2 : GState)
    (h : s1.originalP = s2.originalP) :
    parseFullModel path doc s1 = parseFullModel path doc s2 := by
  unfold parseFullModel
  have hr : resetOf path s1 = resetOf path s2 := by
    simp [resetOf, h]
  rw [hr]

theorem C2_resetExceptOriginalP_witness :
    ({ initG with globalPug := "x".data } : GState).originalP = initG.originalP ∧
    parseFullModel "d".data [Tok.blockquote [BTok.bheading 2 "y".data]]
        { initG with globalPug := "x".data }
      = parseFullModel "d".data [Tok.blockquote [BTok.bheading 2 "y".data]] initG :=
  ⟨rfl, C2_resetExceptOriginalP "d".data [Tok.blockquote [BTok.bheading 2 "y".data]] _ _ rfl⟩

/-- C6: a level-1 heading records the document title and contributes no
output html; a heading of any other level renders the standard h-tag pair;
consequently the document whose only content is the top-level heading
`Intro` yields title `Intro`, an empty step sequence and zero rendered
step elements (no horizontal rule ever opens a step). -/
theorem C6_headingTitle (st : GState) (l : Nat) (t : Str) (h : l ≠ 1) :
    renderTok st (Tok.heading 1 t) = ([Frag.text []], { st with title := some t }) ∧
    renderTok st (Tok.heading l t)
      = ([Frag.text ("<h".data ++ (Nat.repr l).data ++ '>' ::
          (t ++ "</h".data ++ (Nat.repr l).data ++ ['>']))], st) ∧
    (parseFullModel "d".data [Tok.heading 1 "Intro".data] initG).1
      = some { html := "</x-step>".data, bios := [], gloss := [],
               title := some "Intro".data, docMeta := [], steps := [],
               stepElemIds := [] } := by
  refine ⟨by simp [renderTok], by simp [renderTok, h], by decide⟩

theorem C6_headingTitle_witness :
    (2 : Nat) ≠ 1 ∧
    (renderTok initG (Tok.heading 1 "T".data)
       = ([Frag.text []], { initG with title := some "T".data }) ∧
     renderTok initG (Tok.heading 2 "T".data)
       = ([Frag.text ("<h".data ++ (Nat.repr 2).data ++ '>' ::
           ("T".data ++ "</h".data ++ (Nat.repr 2).data ++ ['>']))], initG) ∧
     (parseFullModel "d".data [Tok.heading 1 "Intro".data] initG).1
       = some { html := "</x-step>".data, bios := [], gloss := [],
                title := some "Intro".data, docMeta := [], steps := [],
                stepElemIds := [] }) :=
  ⟨by decide, C6_headingTitle initG 2 "T".data (by decide)⟩

theorem insertSet_nodup (l : List Str) (x : Str) (h : l.Nodup) :
    (insertSet l x).Nodup := by
  by_cases hx : x ∈ l
  · simpa [insertSet, hx] using h
  · simp [insertSet, hx, List.nodup_append, h]

theorem renderLink_nodup (href text : Str) (b g : List Str)
    (hb : b.Nodup) (hg : g.Nodup) :
    (renderLink href text b g).2.1.Nodup ∧ (renderLink href text b g).2.2.Nodup := by
  unfold renderLink
  split
  · exact ⟨hb, insertSet_nodup _ _ hg⟩
  · split
    · exact ⟨insertSet_nodup _ _ hb, hg⟩
    · split
      · exact ⟨hb, hg⟩
      · dsimp only
        split
        · exact ⟨hb, hg⟩
        · exact ⟨hb, hg⟩

theorem processLinks_nodup (links : List (Str × Str)) (acc : List Str × List Str)
    (hb : acc.1.Nodup) (hg : acc.2.Nodup) :
    (processLinks links acc).1.Nodup ∧ (processLinks links acc).2.Nodup := by
  induction links generalizing acc with
  | nil => exact ⟨hb, hg⟩
  | cons p rest ih =>
    obtain ⟨href, text⟩ := p
    have h2 := renderLink_nodup href text acc.1 acc.2 hb hg
    simpa [processLinks] using ih _ h2.1 h2.2

/-- C4: over any sequence of links in a document, the glossary and
biography sets built by the link renderer contain each identifier at most
once, no matter how many `gloss:`/`bio:` links reference it; in
particular two links to `gloss:atom` yield a glossary set of size one
containing exactly `atom`. -/
theorem C4_referenceSetsUnique (links : List (Str × Str)) :
    (processLinks links ([], [])).1.Nodup ∧
    (processLinks links ([], [])).2.Nodup ∧
    processLinks [("gloss:atom".data, "x".data), ("gloss:atom".data, "y".data)] ([], [])
      = ([], ["atom".data]) ∧
    ([] : List Str) ++ ["atom".data] = ["atom".data] := by
  refine ⟨(processLinks_nodup links ([], []) (by simp) (by simp)).1,
          (processLinks_nodup links ([], []) (by simp) (by simp)).2,
          by decide, rfl⟩

theorem parentFree_propagateNode_aux :
    ∀ (n : Nat) (e : Elem), sizeOf e ≤ n → parentFree (propagateNode e) = true := by
  intro n
  induction n with
  | zero =>
    intro e h
    cases e with
    | mk t attrs cls ch =>
      simp only [Elem.mk.sizeOf_spec] at h
      omega
  | succ n ih =>
    intro e h
    cases e with
    | mk t attrs cls ch =>
      rw [propagateNode, parentFree]
      simp only [Bool.and_eq_true, List.all_eq_true]
      constructor
      · intro p hp
        simp only [List.mem_filter] at hp
        simpa using hp.2
      · intro x _
        obtain ⟨y, _, hyeq⟩ := List.mem_map.mp x.2
        rw [← hyeq]
        have hmem : y.1 ∈ ch := y.2
        have hlt : sizeOf y.1 < sizeOf (Elem.mk t attrs cls ch) := by
          have := List.sizeOf_lt_of_mem hmem
          simp only [Elem.mk.sizeOf_spec]
          omega
        exact ih y.1 (by omega)

theorem parentFree_propagateNode (e : Elem) : parentFree (propagateNode e) = true :=
  parentFree_propagateNode_aux (sizeOf e) e (Nat.le_refl _)

/-- C9: after the parent-class propagation pass, no element below the body
carries a `parent` attribute (so none survives into the serialized
per-step or whole-document html, both of which are produced from this
tree); each element's space-separated `parent` class list has been added
to its parent node's class list, and the attribute itself is discarded. -/
theorem C9_parentAttrConsumed (body : Elem) :
    (childrenOf (propagateBody body)).all parentFree = true ∧
    classesOf (propagateBody body)
      = addClasses (classesOf body) (parentClasses (childrenOf body)) ∧
    attrsOf (propagateBody body) = attrsOf body ∧
    classesOf (propagateNode body)
      = addClasses (classesOf body) (parentClasses (childrenOf body)) ∧
    attrsOf (propagateNode body)
      = (attrsOf body).filter (fun p => p.1 ≠ "parent".data) := by
  cases body with
  | mk t attrs cls ch =>
    refine ⟨?_, rfl, rfl, ?_, ?_⟩
    · simp only [propagateBody, childrenOf, List.all_eq_true]
      intro e he
      obtain ⟨c, _, rfl⟩ := List.mem_map.mp he
      exact parentFree_propagateNode c
    · rw [propagateNode]
      rfl
    · rw [propagateNode]
      rfl

theorem parseBlanksGo_skip (k : Nat) (s : Str) :
    parseBlanksGo k s = parseBlanksGo 0 (s.drop k) := by
  induction k generalizing s with
  | zero => simp
  | succ k ih =>
    cases s with
    | nil => simp [parseBlanksGo]
    | cons c cs =>
      rw [List.drop_succ_cons]
      exact ih cs

theorem takeWhile_ne_append (stop : Char) (body r : Str) (h : stop ∉ body) :
    (body ++ stop :: r).takeWhile (fun x => x ≠ stop) = body := by
  induction body with
  | nil => simp [List.takeWhile_cons]
  | cons b bs ih =>
    simp only [List.mem_cons, not_or] at h
    have hb : b ≠ stop := fun he => h.1 he.symm
    simpa [List.takeWhile_cons, hb] using ih h.2

theorem drop_append_plus {α : Type} (l r : List α) (n : Nat) :
    (l ++ r).drop (l.length + n) = r.drop n := by
  induction l with
  | nil => simp
  | cons c cs ih =>
    simp only [List.cons_append, List.length_cons]
    have he : cs.length + 1 + n = (cs.length + n) + 1 := by omega
    rw [he, List.drop_succ_cons]
    exact ih

theorem splitChar_ne_nil (sep : Char) (s : Str) : splitChar sep s ≠ [] := by
  cases s with
  | nil => simp [splitChar]
  | cons c cs =>
    by_cases h : c = sep
    · simp [splitChar, h]
    · simp only [splitChar, h, if_false]
      cases hs : splitChar sep cs <;> simp

theorem one_lt_splitChar (sep : Char) (s : Str) :
    1 < (splitChar sep s).length ↔ sep ∈ s := by
  induction s with
  | nil => simp [splitChar]
  | cons c cs ih =>
    by_cases h : c = sep
    · subst h
      rw [show splitChar c (c :: cs) = [] :: splitChar c cs from by simp [splitChar]]
      simp only [List.length_cons, List.mem_cons, true_or, iff_true]
      have hlen : 0 < (splitChar c cs).length :=
        List.length_pos.mpr (splitChar_ne_nil c cs)
      omega
    · simp only [splitChar, h, if_false]
      cases hs : splitChar sep cs with
      | nil => exact absurd hs (splitChar_ne_nil sep cs)
      | cons h0 t =>
        rw [hs] at ih
        simp only [List.length_cons] at ih ⊢
        simp only [List.mem_cons]
        constructor
        · intro hl
          exact Or.inr (ih.mp hl)
        · intro hm
          cases hm with
          | inl he => exact absurd he.symm h
          | inr hm => exact ih.mpr hm

theorem blankElem_choices (body : Str) (h : '|' ∈ body) :
    blankElem body = "<x-blank choices=\"".data ++ body ++ "\"></x-blank>".data := by
  unfold blankElem
  rw [if_pos ((one_lt_splitChar '|' body).mpr h)]

theorem blankElem_solution (body : Str) (h : '|' ∉ body) :
    blankElem body
      = "<x-blank-input solution=\"".data ++ body ++ "\"></x-blank-input>".data := by
  unfold blankElem
  rw [if_neg (fun hc => h ((one_lt_splitChar '|' body).mp hc))]

theorem parseBlanks_split (pre body tail : Str)
    (h1 : '[' ∉ pre) (h2 : body ≠ []) (h3 : ']' ∉ body) :
    parseBlanksGo 0 (pre ++ '[' :: '[' :: (body ++ ']' :: ']' :: tail))
      = pre ++ (blankElem body ++ parseBlanksGo 0 tail) := by
  induction pre with
  | nil =>
    simp only [List.nil_append]
    rw [parseBlanksGo]
    rw [if_pos ⟨rfl, rfl⟩]
    simp only [List.tail_cons]
    rw [takeWhile_ne_append ']' body (']' :: tail) h3]
    rw [List.drop_left]
    rw [if_pos ⟨h2, by simp [List.isPrefixOf]⟩]
    rw [parseBlanksGo_skip]
    congr 1
    have hd : ('[' :: (body ++ ']' :: ']' :: tail)).drop (body.length + 3) = tail := by
      have h4 : body.length + 3 = (body.length + 2) + 1 := by omega
      rw [h4, List.drop_succ_cons]
      have h5 : (body ++ ']' :: ']' :: tail).drop (body.length + 2)
          = (']' :: ']' :: tail).drop 2 := drop_append_plus body _ 2
      rw [h5]
      rfl
    rw [hd]
  | cons c cs ih =>
    simp only [List.mem_cons, not_or] at h1
    have hc : ¬(c = '[' ∧ (cs ++ '[' :: '[' :: (body ++ ']' :: ']' :: tail)).head? = some '[') := by
      intro hcc
      exact h1.1 hcc.1.symm
    simp only [List.cons_append]
    rw [parseBlanksGo]
    rw [if_neg hc]
    rw [ih h1.2]

/-- C8: in an inline text run, a double-bracket marker whose body has no
closing bracket inside is replaced by a blank element — a multiple-choice
element whose `choices` attribute carries the full `|`-separated list when
the body contains a `|`, and a free-text element whose `solution`
attribute carries the single string otherwise; the surrounding text is
kept and scanning continues after the marker.  The concrete spec examples
are evaluated through the full inline extension processor. -/
theorem C8_doubleBracketBlanks (pre body tail : Str)
    (h1 : '[' ∉ pre) (h2 : body ≠ []) (h3 : ']' ∉ body) :
    (parseBlanks (pre ++ '[' :: '[' :: (body ++ ']' :: ']' :: tail))
       = pre ++ (blankElem body ++ parseBlanks tail)) ∧
    ('|' ∈ body →
      blankElem body = "<x-blank choices=\"".data ++ body ++ "\"></x-blank>".data) ∧
    ('|' ∉ body →
      blankElem body
        = "<x-blank-input solution=\"".data ++ body ++ "\"></x-blank-input>".data) ∧
    parseParagraph "It is [[paris|london|berlin]] now".data
      = "It is <x-blank choices=\"paris|london|berlin\"></x-blank> now".data ∧
    parseParagraph "It is [[42]] now".data
      = "It is <x-blank-input solution=\"42\"></x-blank-input> now".data :=
  ⟨parseBlanks_split pre body tail h1 h2 h3,
   blankElem_choices body, blankElem_solution body, by decide, by decide⟩

theorem C8_doubleBracketBlanks_witness :
    ('[' ∉ "xy ".data ∧ "ab|cd".data ≠ ([] : Str) ∧ ']' ∉ "ab|cd".data) ∧
    ((parseBlanks ("xy ".data ++ '[' :: '[' :: ("ab|cd".data ++ ']' :: ']' :: " z".data))
        = "xy ".data ++ (blankElem "ab|cd".data ++ parseBlanks " z".data)) ∧
     ('|' ∈ "ab|cd".data →
       blankElem "ab|cd".data
         = "<x-blank choices=\"".data ++ "ab|cd".data ++ "\"></x-blank>".data) ∧
     ('|' ∉ "ab|cd".data →
       blankElem "ab|cd".data
         = "<x-blank-input solution=\"".data ++ "ab|cd".data ++ "\"></x-blank-input>".data) ∧
     parseParagraph "It is [[paris|london|berlin]] now".data
       = "It is <x-blank choices=\"paris|london|berlin\"></x-blank> now".data ∧
     parseParagraph "It is [[42]] now".data
       = "It is <x-blank-input solution=\"42\"></x-blank-input> now".data) :=
  ⟨⟨by decide, by decide, by decide⟩,
   C8_doubleBracketBlanks "xy ".data "ab|cd".data " z".data
     (by decide) (by decide) (by decide)⟩

theorem updateLast_length (f : StepRec → StepRec) (l : List StepRec) :
    (updateLast f l).length = l.length := by
  induction l with
  | nil => rfl
  | cons d ds ih =>
    cases ds with
    | nil => rfl
    | cons e es => simp only [updateLast, List.length_cons] at ih ⊢; omega

theorem mergeDocKV_inv (st : GState) (kv : Str × Str) :
    (mergeDocKV st kv).steps = st.steps ∧ (mergeDocKV st kv).originalP = st.originalP := by
  unfold mergeDocKV
  split
  · exact ⟨rfl, rfl⟩
  · split <;> exact ⟨rfl, rfl⟩

theorem foldl_mergeDocKV_inv (kvs : List (Str × Str)) (st : GState) :
    (kvs.foldl mergeDocKV st).steps = st.steps ∧
    (kvs.foldl mergeDocKV st).originalP = st.originalP := by
  induction kvs generalizing st with
  | nil => exact ⟨rfl, rfl⟩
  | cons kv rest ih =>
    have h1 := mergeDocKV_inv st kv
    have h2 := ih (mergeDocKV st kv)
    exact ⟨h2.1.trans h1.1, h2.2.trans h1.2⟩

theorem mergeMeta_inv (st : GState) (kvs : List (Str × Str)) :
    (mergeMeta st kvs).steps.length = st.steps.length := by
  unfold mergeMeta
  split
  · rw [(foldl_mergeDocKV_inv kvs st).1]
  · simp [updateLast_length]

theorem countOpens_append (a b : List Frag) :
    countOpens (a ++ b) = countOpens a + countOpens b := by
  induction a with
  | nil => simp [countOpens]
  | cons f fs ih =>
    cases f <;> (simp [countOpens, ih]; try omega)

theorem renderBTok_steps (st : GState) (b : BTok) (h : btokKeep b = true) :
    (renderBTok st b).2.steps = st.steps := by
  cases b with
  | bheading l t => by_cases hl : l = 1 <;> simp [renderBTok, hl]
  | bparagraph t => rfl
  | bhr => simp [btokKeep] at h

theorem runBToks_steps (bs : List BTok) (st : GState)
    (h : bs.all btokKeep = true) :
    (runBToks bs st).2.steps = st.steps := by
  induction bs generalizing st with
  | nil => rfl
  | cons b rest ih =>
    simp only [List.all_cons, Bool.and_eq_true] at h
    show (runBToks rest (renderBTok st b).2).2.steps = st.steps
    rw [ih _ h.2, renderBTok_steps st b h.1]

theorem renderTok_count (st : GState) (t : Tok) (ht : tokNoBhr t = true) :
    countOpens (renderTok st t).1 + st.steps.length = (renderTok st t).2.steps.length := by
  cases t with
  | heading l txt =>
    by_cases hl : l = 1 <;> simp [renderTok, hl, countOpens]
  | hr =>
    by_cases hs : st.steps = [] <;> (simp [renderTok, hs, countOpens]; try omega)
  | paragraph txt => simp [renderTok, countOpens]
  | blockquote inner =>
    show countOpens [Frag.text []] + st.steps.length
        = (mergeMeta (runBToks inner st).2 _).steps.length
    rw [mergeMeta_inv]
    rw [runBToks_steps inner st (by simpa [tokNoBhr] using ht)]
    simp [countOpens]
  | code c =>
    by_cases hs : st.steps = [] <;> simp [renderTok, hs, countOpens]

theorem runTokens_count (ts : List Tok) (st : GState)
    (hts : ts.all tokNoBhr = true) :
    countOpens (runTokens ts st).1 + st.steps.length = (runTokens ts st).2.steps.length := by
  induction ts generalizing st with
  | nil => simp [runTokens, countOpens]
  | cons t ts ih =>
    simp only [List.all_cons, Bool.and_eq_true] at hts
    have h1 := renderTok_count st t hts.1
    have h2 := ih (renderTok st t).2 hts.2
    show countOpens ((renderTok st t).1 ++ (runTokens ts (renderTok st t).2).1)
          + st.steps.length
        = (runTokens ts (renderTok st t).2).2.steps.length
    rw [countOpens_append]
    omega

theorem stepContentsGo_length (frags : List Frag) :
    ∀ (inStep : Bool) (cur : Str),
      (stepContentsGo inStep cur frags).length
        = countOpens frags + (if inStep then 1 else 0) := by
  induction frags with
  | nil =>
    intro inStep cur
    cases inStep <;> simp [stepContentsGo, countOpens]
  | cons f fs ih =>
    intro inStep cur
    cases f with
    | stepOpen => cases inStep <;> (simp [stepContentsGo, countOpens, ih]; try omega)
    | stepClose => cases inStep <;> (simp [stepContentsGo, countOpens, ih]; try omega)
    | text s => cases inStep <;> simp [stepContentsGo, countOpens, ih]

theorem filter_all_self {α : Type} (p : α → Bool) (l : List α)
    (h : ∀ a ∈ l, p a = true) : l.filter p = l := by
  induction l with
  | nil => rfl
  | cons a rest ih =>
    have ha := h a (List.mem_cons_self a rest)
    simp only [List.filter_cons, ha, if_true]
    rw [ih (fun x hx => h x (List.mem_cons_of_mem a hx))]

theorem domAssign_spec (steps : List StepRec) (i : Nat)
    (hid : ∀ d ∈ steps, d.id ≠ some []) :
    ∃ ids steps2,
      domAssign i steps.length steps = some (ids, steps2) ∧
      ids.length = steps.length ∧
      steps2.length = steps.length ∧
      (∀ j, j < steps.length →
        ids.getD j [] = (steps2.getD j emptyStep).id.getD [] ∧
        (steps2.getD j emptyStep).id = some (specId (i + j) (steps.getD j emptyStep))) := by
  induction steps generalizing i with
  | nil => exact ⟨[], [], rfl, rfl, rfl, fun j hj => absurd hj (by simp)⟩
  | cons d ds ih =>
    have hd : d.id ≠ some [] := hid d (List.mem_cons_self d ds)
    have hds : ∀ x ∈ ds, x.id ≠ some [] := fun x hx => hid x (List.mem_cons_of_mem d hx)
    obtain ⟨ids, steps2, heq, hl1, hl2, hj⟩ := ih (i + 1) hds
    have hd2 : (if idFalsy d.id then
        { d with id := some ("step-".data ++ (Nat.repr i).data) } else d).id
          = some (specId i d) := by
      cases hc : d.id with
      | none => simp [idFalsy, specId, hc]
      | some s =>
        have hs : ¬s.isEmpty = true := by
          intro hempty
          exact hd (by rw [hc, List.isEmpty_iff.mp hempty])
        simp [idFalsy, hc, hs, specId]
    refine ⟨(if idFalsy d.id then
        { d with id := some ("step-".data ++ (Nat.repr i).data) } else d).id.getD [] :: ids,
      (if idFalsy d.id then
        { d with id := some ("step-".data ++ (Nat.repr i).data) } else d) :: steps2,
      ?_, ?_, ?_, ?_⟩
    · show domAssign i (ds.length + 1) (d :: ds) = _
      rw [domAssign, heq]
    · simp [List.length_cons, hl1]
    · simp [List.length_cons, hl2]
    · intro j hjlt
      cases j with
      | zero =>
        refine ⟨rfl, ?_⟩
        simpa using hd2
      | succ j' =>
        simp only [List.getD_cons_succ]
        have hlt' : j' < ds.length := by
          simp only [List.length_cons] at hjlt
          omega
        have := hj j' hlt'
        refine ⟨this.1, ?_⟩
        rw [show i + (j' + 1) = (i + 1) + j' from by omega]
        exact this.2

/-- C3 counterexample: the claimed equality of step records and rendered
step elements fails on the code.  A document of one hr followed by an
indented code block of pug pipe text renders a bare text node starting
with a brace group as the step's first child; `blockAttributes` matches
the leading group, its body renders (through the templating collaborator)
to a root other than a div, so the whole x-step element is replaced by
that root (src/full.js lines 124-127) — leaving one step record but zero
x-step elements, with the record's id never assigned. -/
theorem C3_recordsNeqElements :
    (parseFullModel "d".data [Tok.hr, Tok.code "| \x7bb\x7d hi".data] initG).1
      = some { html := "<x-step>\x7bb\x7d hi</x-step>".data, bios := [], gloss := [],
               title := none, docMeta := [],
               steps := [emptyStep], stepElemIds := [] } ∧
    ((parseFullModel "d".data [Tok.hr, Tok.code "| \x7bb\x7d hi".data] initG).1.map
        (fun r => r.steps.length)) = some 1 ∧
    ((parseFullModel "d".data [Tok.hr, Tok.code "| \x7bb\x7d hi".data] initG).1.map
        (fun r => r.stepElemIds.length)) = some 0 ∧
    stepReplaced "\x7bb\x7d hi".data = true := by
  refine ⟨by decide, by decide, by decide, by decide⟩

/-- C3 (amended): the equality of step records and rendered step elements,
and the id correspondence, hold for documents on which the DOM post-passes
neither destroy nor create step elements: no step content opens with an
attribute-block brace group whose templating root is not a div (such a
group replaces the x-step element itself), no rendered fragment
counterfeits or brace-builds x-step markup or carries `md` text (the
markdown-in-html re-parse), no hr sits inside a blockquote (its step tags
are discarded with the quote), front matter never overwrites the `steps`
key, and explicitly set ids are non-empty (an empty id is JS-falsy and
would be defaulted).  For such documents the call succeeds,
`steps.length` equals the number of rendered step elements, each
element's id equals the corresponding record's id, and that id is the
explicit front-matter id when one was set and exactly `step-<i>`
otherwise. -/
theorem C3_stepIdentity (path : Str) (doc : List Tok) (st : GState)
    (_hclean : ((runTokens doc (resetOf path st)).1).all fragClean = true)
    (hnb : doc.all tokNoBhr = true)
    (hcor : (runTokens doc (resetOf path st)).2.corrupt = false)
    (hsurv : ∀ c ∈ stepContents ((runTokens doc (resetOf path st)).1 ++ [Frag.stepClose]),
      stepReplaced c = false)
    (hids : ∀ d ∈ (runTokens doc (resetOf path st)).2.steps, d.id ≠ some []) :
    ∃ r st2, parseFullModel path doc st = (some r, st2) ∧
      r.stepElemIds.length = r.steps.length ∧
      (∀ j, j < r.steps.length →
        r.stepElemIds.getD j [] = (r.steps.getD j emptyStep).id.getD [] ∧
        (r.steps.getD j emptyStep).id
          = some (specId j ((runTokens doc (resetOf path st)).2.steps.getD j emptyStep))) := by
  have hcnt := runTokens_count doc (resetOf path st) hnb
  rcases hrun : runTokens doc (resetOf path st) with ⟨frags0, st2⟩
  rw [hrun] at hcnt hids hcor hsurv
  have hcnt2 : countOpens frags0 = st2.steps.length := by
    simpa [resetOf] using hcnt
  have hlen : ((stepContents (frags0 ++ [Frag.stepClose])).filter
      (fun c => !stepReplaced c)).length = st2.steps.length := by
    rw [filter_all_self _ _ (fun c hc => by simp [hsurv c hc])]
    show (stepContentsGo false [] (frags0 ++ [Frag.stepClose])).length = st2.steps.length
    rw [stepContentsGo_length (frags0 ++ [Frag.stepClose]) false []]
    rw [countOpens_append]
    simp [countOpens, hcnt2]
  obtain ⟨ids, steps2, heq, hl1, hl2, hj⟩ := domAssign_spec st2.steps 0 hids
  refine ⟨{ html := catLists ((frags0 ++ [Frag.stepClose]).map fragStr),
            bios := st2.bios, gloss := st2.gloss, title := st2.title,
            docMeta := st2.docMeta, steps := steps2, stepElemIds := ids },
          { st2 with steps := steps2 }, ?_, ?_, ?_⟩
  · simp only [parseFullModel, parseFullGo, hrun]
    rw [hlen, heq]
    simp [show st2.corrupt = false from hcor]
  · simpa using hl1.trans hl2.symm
  · intro j hjlt
    have hjlt2 : j < st2.steps.length := by
      rw [← hl2]
      simpa using hjlt
    have hh := hj j hjlt2
    exact ⟨hh.1, by simpa using hh.2⟩

theorem C3_stepIdentity_witness :
    ∃ r st2,
      parseFullModel "d".data
          [Tok.hr, Tok.blockquote [BTok.bparagraph "id: foo".data], Tok.hr] initG
        = (some r, st2) ∧
      r.stepElemIds.length = r.steps.length ∧
      (∀ j, j < r.steps.length →
        r.stepElemIds.getD j [] = (r.steps.getD j emptyStep).id.getD [] ∧
        (r.steps.getD j emptyStep).id
          = some (specId j ((runTokens
              [Tok.hr, Tok.blockquote [BTok.bparagraph "id: foo".data], Tok.hr]
              (resetOf "d".data initG)).2.steps.getD j emptyStep))) :=
  C3_stepIdentity "d".data
    [Tok.hr, Tok.blockquote [BTok.bparagraph "id: foo".data], Tok.hr] initG
    (by decide) (by decide) (by decide) (by decide) (by decide)

-- -----------------------------------------------------------------------------
-- Evaluation checks of the embedded definitions on concrete inputs

example : splitChar '|' "a|b|c".data = ["a".data, "b".data, "c".data] := by decide

example : replaceAll "when=".data "data-when=".data "x when=1".data = "x data-when=1".data := by decide

example : replaceFirst "column".data "div".data "column column".data = "div column".data := by decide

example : splitOnSub "</".data "<div></div>".data = ["<div>".data, "div>".data] := by decide

example : countSub "ab".data "abab".data = 2 := by decide

example : containsSub "bc".data "abcd".data = true := by decide

example : trimStr "  ab ".data = "ab".data := by decide

example : pugRender "div(width=200)".data = "<div width=\"200\"></div>".data := by decide

example : pugRender "div width=200".data = "<div>width=200</div>".data := by decide

example : pugRender ".tab".data = "<div class=\"tab\"></div>".data := by decide

example : pugRender ".box".data = "<div class=\"box\"></div>".data := by decide

example : blockIndentation ":::".data = "\nundefined\n".data := by decide

example : blockIndentation "::: .box\n:::".data = "<div class=\"box\">\n\n\n</div>\n".data := by decide

example : parseParagraph "[[paris|london|berlin]]".data
    = "<x-blank choices=\"paris|london|berlin\"></x-blank>".data := by decide

example : parseParagraph "[[42]]".data
    = "<x-blank-input solution=\"42\"></x-blank-input>".data := by decide

example : parseParagraph "a $\x7bx\x7d\x7bv\x7d b".data
    = "a <x-var bind=\"v\">$\x7bx\x7d</x-var> b".data := by decide

example : parseParagraph "a $\x7bx\x7d b".data
    = "a <span class=\"var\">$\x7bx\x7d</span> b".data := by decide

example : processLinks [("gloss:atom".data, "a".data), ("gloss:atom".data, "b".data)] ([], [])
    = ([], ["atom".data]) := by decide

example : (renderLink "bio:euler".data "Euler".data [] []).1
    = "<x-bio xid=\"euler\">Euler</x-bio>".data := by decide

example : yamlParse "id: foo\ngoals: g1".data
    = [("id".data, "foo".data), ("goals".data, "g1".data)] := by decide

example :
    (parseFullModel "d".data
        [Tok.hr, Tok.blockquote [BTok.bparagraph "id: foo".data], Tok.hr] initG).1
    = some { html := "<x-step></x-step><x-step></x-step>".data, bios := [], gloss := [],
             title := none, docMeta := [],
             steps := [{ id := some "foo".data, goals := none, cls := none, extra := [] },
                       { id := some "step-1".data, goals := none, cls := none, extra := [] }],
             stepElemIds := ["foo".data, "step-1".data] } := by decide

example :
    (parseFullModel "d".data [Tok.blockquote [BTok.bparagraph "y: 2".data]]
        (parseFullModel "d".data [Tok.paragraph "x: 1".data] initG).2).1
    = (parseFullModel "d".data [Tok.blockquote [BTok.bparagraph "y: 2".data]] initG).1 := by
  decide

example :
    (renderTok { initG with originalP := some "x: 1".data }
        (Tok.blockquote [BTok.bparagraph "y: 2".data])).2.docMeta
    = [("y".data, "2".data)] := by decide
